import Mathlib

/-!
Verification of the record query/filter engine of the slack-mcp server
(`src/server.py`) against its natural-language specification.

Modelling conventions (shallow embedding of the Python source):

* JSON records are modelled as structures of `Option`-typed fields: `none`
  stands for an absent key, so `msg.get(k, d)` becomes `Option.getD`.
* A Slack `ts` value is a string encoding a decimal number of epoch seconds;
  the embedding carries the parsed numeric value as a rational (`ℚ`), which
  represents the exact decimal written in the JSON.  `float(msg.get("ts","0"))`
  becomes `Option.getD m.ts 0`.
* `datetime.fromtimestamp` converts epoch seconds to a local date-time and
  `datetime.fromisoformat` converts a `YYYY-MM-DD` string to the date-time at
  midnight of that date.  Comparisons of `datetime` values coincide with
  comparisons of their epoch-seconds values, so the embedding represents a
  date-time by its epoch-seconds value, with the local timezone fixed at
  UTC+0 (`localDateTime` is then the identity and midnight of a date is its
  civil day number times 86400).
* `datetime.fromisoformat` is modelled on Python 3.10, the minimum version
  the `mcp` dependency supports, where it accepts exactly the strings
  emitted by `datetime.isoformat()`: a `YYYY-MM-DD` calendar date,
  optionally followed by one arbitrary separator character and a time
  `HH[:MM[:SS[.fff[fff]]]]`, optionally followed by a UTC-offset suffix.
  The model (`parseIsoDateTime`) parses the date and naive time and yields
  the error outcome otherwise.  Offset-bearing (timezone-aware) strings are
  folded into the error outcome too: the library parses them, but the very
  next statement of the source compares the aware bound with the naive
  `msg_date` of the same message, which raises `TypeError`, so the program
  raises at exactly the program point where the model errors.  (Python
  ≥ 3.11 additionally accepts further ISO 8601 variants such as `YYYYMMDD`;
  the model pins the 3.10 grammar.)  Calling `fromisoformat` on `None` is a
  `TypeError`.
* Python exceptions are modelled with `Except`: a raised exception aborts the
  whole query, discarding results accumulated so far, exactly as in the
  source.
* The keyword-argument filter map of `query_messages(data, **filters)` is
  modelled by `FilterSpec`, a record of optional fields; for the two date
  fields presence of the *key* and a `None` *value* must be distinguished
  (the `get_channel_stats` dispatcher passes `from_date=None` explicitly),
  hence their type `Option (Option String)`.
-/

/-- Error raised while evaluating a filter: `invalidDate` models the
`ValueError` raised by `datetime.fromisoformat` on a malformed string and
`typeErr` the `TypeError` it raises when applied to `None`. -/
inductive FilterErr where
  | invalidDate : FilterErr
  | typeErr : FilterErr
deriving DecidableEq, Repr

/-- A message record of the `all_messages` collection (`server.py`).  Fields
are optional because the source reads them with `dict.get` defaults.  The
type of `reply_count` follows the spec's data model (`replyCount` integer
≥ 0). -/
structure Msg where
  channel_name : Option String := none
  channel_id : Option String := none
  user_name : Option String := none
  text : Option String := none
  ts : Option ℚ := none
  reply_count : Option Nat := none
deriving DecidableEq, Repr

/-- A record of the `new_members` collection (`server.py`). -/
structure Member where
  name : Option String := none
  text : Option String := none
  permalink : Option String := none
  ts : Option ℚ := none
deriving DecidableEq, Repr

/-- The decoded snapshot, restricted to the two collections the query
functions read (`data.get("all_messages", [])`, `data.get("new_members",
[])`). -/
structure Dataset where
  all_messages : List Msg := []
  new_members : List Member := []
deriving DecidableEq, Repr

/-- The keyword-argument filter map of `query_messages`.  `none` = key
absent.  For `from_date`/`to_date` the inner `Option` is the Python value
(`some none` = key present with value `None`). -/
structure FilterSpec where
  channel : Option String := none
  from_date : Option (Option String) := none
  to_date : Option (Option String) := none
  user : Option String := none
  search_text : Option String := none
  has_replies : Option Bool := none
  category : Option String := none
deriving DecidableEq, Repr

/-- Python `needle in hay` on lists of characters: `leadsWith n h` is true
iff `n` is a prefix of `h`. -/
def leadsWith : List Char → List Char → Bool
  | [], _ => true
  | _ :: _, [] => false
  | a :: as, b :: bs => a == b && leadsWith as bs

/-- `subOf needle hay` is true iff `needle` occurs contiguously in `hay`
(Python's substring test `needle in hay`). -/
def subOf (needle : List Char) : List Char → Bool
  | [] => leadsWith needle []
  | c :: rest => leadsWith needle (c :: rest) || subOf needle rest

/-- Python `needle in hay` for strings. -/
def strContains (hay needle : String) : Bool :=
  subOf needle.toList hay.toList

/-- Python `str.lower()` (ASCII case folding suffices for this development). -/
def strLower (s : String) : String :=
  ⟨s.data.map Char.toLower⟩

/-- Gregorian leap-year test. -/
def isLeapYear (y : Nat) : Bool :=
  (y % 4 == 0 && y % 100 != 0) || y % 400 == 0

/-- Number of days of month `m` (1-12) of year `y`. -/
def monthLength (y m : Nat) : Nat :=
  if m == 2 then (if isLeapYear y then 29 else 28)
  else if m == 4 || m == 6 || m == 9 || m == 11 then 30
  else 31

/-- Civil day number of `y-m-d` relative to 1970-01-01 (Hinnant's
`days_from_civil`, specialised to years ≥ 1 so all intermediate divisions
are on naturals). -/
def civilDays (y m d : Nat) : Int :=
  let y2 : Nat := if m ≤ 2 then y - 1 else y
  let era : Nat := y2 / 400
  let yoe : Nat := y2 - era * 400
  let mp : Nat := if 2 < m then m - 3 else m + 9
  let doy : Nat := (153 * mp + 2) / 5 + (d - 1)
  let doe : Nat := yoe * 365 + yoe / 4 - yoe / 100 + doy
  (era : Int) * 146097 + (doe : Int) - 719468

/-- `datetime.fromtimestamp`: epoch seconds to local date-time, with the
local timezone fixed at UTC+0, under which the conversion is the
identity on epoch-seconds values. -/
def localDateTime (ts : ℚ) : ℚ := ts

/-- The date-time at midnight of civil day `d`, as epoch seconds. -/
def midnightOf (d : Int) : ℚ := (d : ℚ) * 86400

/-- The `YYYY-MM-DD` date part of `fromisoformat` (`_parse_isoformat_date`):
exactly ten characters, strict digits and dashes, a valid Gregorian
calendar date (year 1-9999); returns its civil day number. -/
def parseDate10 : List Char → Option Int
  | [y1, y2, y3, y4, c1, m1, m2, c2, d1, d2] =>
    if c1 == '-' && c2 == '-' && y1.isDigit && y2.isDigit && y3.isDigit
        && y4.isDigit && m1.isDigit && m2.isDigit && d1.isDigit && d2.isDigit then
      let y := 1000 * (y1.toNat - 48) + 100 * (y2.toNat - 48)
                 + 10 * (y3.toNat - 48) + (y4.toNat - 48)
      let mo := 10 * (m1.toNat - 48) + (m2.toNat - 48)
      let d := 10 * (d1.toNat - 48) + (d2.toNat - 48)
      if 1 ≤ y ∧ 1 ≤ mo ∧ mo ≤ 12 ∧ 1 ≤ d ∧ d ≤ monthLength y mo then
        some (civilDays y mo d)
      else none
    else none
  | _ => none

/-- Parse of a string that is exactly a calendar date: the civil day number,
or `none` when the string is not a well-formed `YYYY-MM-DD` date. -/
def parseDate (s : String) : Option Int :=
  parseDate10 s.toList

/-- Two ASCII digits at the head of the list, with the remainder. -/
def twoDigits : List Char → Option (Nat × List Char)
  | a :: b :: rest =>
    if a.isDigit && b.isDigit then
      some (10 * (a.toNat - 48) + (b.toNat - 48), rest)
    else none
  | _ => none

/-- The time part of `fromisoformat` (`_parse_isoformat_time`, without the
UTC-offset clause): `HH[:MM[:SS[.fff[fff]]]]` with 0-23/0-59/0-59 component
ranges and a fractional part of exactly three or six digits; returns the
number of seconds since midnight.  Any other string — including one with an
offset suffix, see `parseIsoDateTime` — is an error. -/
def parseTimePart (t : List Char) : Option ℚ :=
  match twoDigits t with
  | none => none
  | some (hh, r1) =>
    if 24 ≤ hh then none else
    match r1 with
    | [] => some ((hh * 3600 : Nat) : ℚ)
    | ':' :: r2 =>
      match twoDigits r2 with
      | none => none
      | some (mm, r3) =>
        if 60 ≤ mm then none else
        match r3 with
        | [] => some ((hh * 3600 + mm * 60 : Nat) : ℚ)
        | ':' :: r4 =>
          match twoDigits r4 with
          | none => none
          | some (ss, r5) =>
            if 60 ≤ ss then none else
            match r5 with
            | [] => some ((hh * 3600 + mm * 60 + ss : Nat) : ℚ)
            | '.' :: r6 =>
              if r6.all Char.isDigit ∧ (r6.length = 3 ∨ r6.length = 6) then
                some (((hh * 3600 + mm * 60 + ss : Nat) : ℚ)
                  + ((r6.foldl (fun acc c => 10 * acc + (c.toNat - 48)) 0 : Nat) : ℚ)
                    / (if r6.length = 3 then 1000 else 1000000))
              else none
            | _ => none
        | _ => none
    | _ => none

/-- `datetime.fromisoformat` on a string, modelled on Python 3.10: the
first ten characters must be a `YYYY-MM-DD` date; a string of exactly ten
characters is that date at midnight; otherwise character ten is an
arbitrary separator (skipped, as in the source of `fromisoformat`) and the
remainder from position eleven is parsed as a naive time of day.  The
result is the naive date-time as epoch seconds.  Strings the library
rejects are `none`; offset-bearing strings, which the library parses into
an aware date-time that the source's immediately following comparison with
the naive `msg_date` turns into a `TypeError`, are also `none` — the
program raises at the same point either way. -/
def parseIsoDateTime (s : String) : Option ℚ :=
  match parseDate10 (s.toList.take 10) with
  | none => none
  | some d =>
    match s.toList.drop 10 with
    | [] => some (midnightOf d)
    | _ :: tstr =>
      match parseTimePart tstr with
      | none => none
      | some t => some (midnightOf d + t)

/-- `datetime.fromisoformat(v)` where `v` is the Python value stored under a
date key: `None` raises `TypeError`; a string the parse cannot turn into a
usable naive bound raises (`ValueError` at the parse, or `TypeError` at the
comparison that immediately follows for aware bounds). -/
def pyFromisoformat (v : Option String) : Except FilterErr ℚ :=
  match v with
  | none => .error .typeErr
  | some s =>
    match parseIsoDateTime s with
    | none => .error .invalidDate
    | some d => .ok d

/-- The channel predicate of `query_messages`:
`if filters["channel"] not in msg.get("channel_name", ""): continue`. -/
def chPass (spec : FilterSpec) (m : Msg) : Bool :=
  match spec.channel with
  | none => true
  | some c => strContains (m.channel_name.getD "") c

/-- The `to_date` half of the date block: parsed and compared only after the
message has survived the `from_date` bound. -/
def toPassCheck (spec : FilterSpec) (msgDate : ℚ) : Except FilterErr Bool :=
  match spec.to_date with
  | none => .ok true
  | some v =>
    match pyFromisoformat v with
    | .error e => .error e
    | .ok toDt => .ok (!(toDt < msgDate))

/-- The date block of `query_messages`: entered only when at least one date
key is present; `ts = float(msg.get("ts", "0"))`; `from_date` is parsed
first, and a message below the lower bound is dropped before `to_date` is
ever parsed. -/
def datePass (spec : FilterSpec) (m : Msg) : Except FilterErr Bool :=
  if spec.from_date.isNone && spec.to_date.isNone then .ok true
  else
    let msgDate := localDateTime (m.ts.getD 0)
    match spec.from_date with
    | none => toPassCheck spec msgDate
    | some v =>
      match pyFromisoformat v with
      | .error e => .error e
      | .ok fromDt =>
        if msgDate < fromDt then .ok false
        else toPassCheck spec msgDate

/-- The user predicate: case-insensitive substring match against
`msg.get("user_name", "")`. -/
def userPass (spec : FilterSpec) (m : Msg) : Bool :=
  match spec.user with
  | none => true
  | some u => strContains (strLower (m.user_name.getD "")) (strLower u)

/-- The text-search predicate: case-insensitive substring match against
`msg.get("text", "")`. -/
def textPass (spec : FilterSpec) (m : Msg) : Bool :=
  match spec.search_text with
  | none => true
  | some t => strContains (strLower (m.text.getD "")) (strLower t)

/-- The has-replies predicate: pass iff the requested boolean equals
`msg.get("reply_count", 0) > 0`. -/
def repliesPass (spec : FilterSpec) (m : Msg) : Bool :=
  match spec.has_replies with
  | none => true
  | some b => b == decide (0 < m.reply_count.getD 0)

/-- The inline category → channel-substring table of `query_messages`. -/
def categoryMap (c : String) : Option String :=
  if c == "intro" then some "07-intros"
  else if c == "ask" then some "05-asks"
  else if c == "discussion" then some "02-discussion"
  else if c == "news" then some "03-news"
  else if c == "session" then some "09-00-hemingway-sessions"
  else none

/-- The category predicate: the lowercased category is looked up in the
table; a category outside the table imposes no constraint (the source only
filters `if category in category_map`). -/
def catPass (spec : FilterSpec) (m : Msg) : Bool :=
  match spec.category with
  | none => true
  | some craw =>
    match categoryMap (strLower craw) with
    | none => true
    | some sub => strContains (m.channel_name.getD "") sub

/-- One iteration of the `query_messages` loop body: the predicates in
source order (channel → dates → user → text → replies → category), with the
date block the only one that can raise. -/
def msgPass (spec : FilterSpec) (m : Msg) : Except FilterErr Bool :=
  if !chPass spec m then .ok false
  else
    match datePass spec m with
    | .error e => .error e
    | .ok false => .ok false
    | .ok true =>
      if !userPass spec m then .ok false
      else if !textPass spec m then .ok false
      else if !repliesPass spec m then .ok false
      else .ok (catPass spec m)

/-- The `for msg in messages` loop of `query_messages`: keep the passing
messages in order; a raised exception aborts the whole loop. -/
def queryLoop (spec : FilterSpec) : List Msg → Except FilterErr (List Msg)
  | [] => .ok []
  | m :: rest =>
    match msgPass spec m with
    | .error e => .error e
    | .ok keep =>
      match queryLoop spec rest with
      | .error e => .error e
      | .ok others => .ok (if keep then m :: others else others)

/-- `query_messages(data, **filters)` of `server.py`. -/
def query_messages (data : Dataset) (spec : FilterSpec) : Except FilterErr (List Msg) :=
  queryLoop spec data.all_messages

/-- Python truthiness of an optional string argument (`if from_date:`):
false for `None` and for the empty string. -/
def pyTruthy : Option String → Bool
  | none => false
  | some s => !(s == "")

/-- The `to_date` half of the `get_new_members` loop body. -/
def memberToCheck (td : Option String) (d : ℚ) : Except FilterErr Bool :=
  if pyTruthy td then
    match parseIsoDateTime (td.getD "") with
    | none => .error .invalidDate
    | some toDt => .ok (!(toDt < d))
  else .ok true

/-- The `get_new_members` loop body: same inclusive date semantics as the
message filter, guarded by truthiness of each bound. -/
def memberPass (fd td : Option String) (mem : Member) : Except FilterErr Bool :=
  let d := localDateTime (mem.ts.getD 0)
  if pyTruthy fd then
    match parseIsoDateTime (fd.getD "") with
    | none => .error .invalidDate
    | some fromDt =>
      if d < fromDt then .ok false
      else memberToCheck td d
  else memberToCheck td d

/-- The `for member in members` loop of `get_new_members`. -/
def memberLoop (fd td : Option String) : List Member → Except FilterErr (List Member)
  | [] => .ok []
  | mem :: rest =>
    match memberPass fd td mem with
    | .error e => .error e
    | .ok keep =>
      match memberLoop fd td rest with
      | .error e => .error e
      | .ok others => .ok (if keep then mem :: others else others)

/-- `get_new_members(data, from_date, to_date)` of `server.py`:
`if not from_date and not to_date: return members`. -/
def get_new_members (data : Dataset) (fd td : Option String) :
    Except FilterErr (List Member) :=
  if !pyTruthy fd && !pyTruthy td then .ok data.new_members
  else memberLoop fd td data.new_members

/-- The channel name used by the stats aggregation:
`msg.get("channel_name", "unknown")`. -/
def chNameStat (m : Msg) : String :=
  m.channel_name.getD "unknown"

/-- The channel names of a message list, in order, as seen by the stats
aggregation. -/
def chNames (msgs : List Msg) : List String :=
  msgs.map chNameStat

/-- One step of building the stats dict:
`stats[channel] = stats.get(channel, 0) + 1` on an insertion-ordered
dictionary, modelled as an association list (update in place if the key is
present, else append). -/
def bumpCount : List (String × Nat) → String → List (String × Nat)
  | [], c => [(c, 1)]
  | (k, n) :: rest, c =>
    if k = c then (k, n + 1) :: rest else (k, n) :: bumpCount rest c

/-- The stats dictionary of `get_channel_stats` as an insertion-ordered
association list (`stats.items()`). -/
def countsAssoc (msgs : List Msg) : List (String × Nat) :=
  (chNames msgs).foldl bumpCount []

/-- The comparison realising
`sorted(stats.items(), key=lambda x: x[1], reverse=True)` on entries tagged
with their dictionary position: CPython's sort is stable (also with
`reverse=True`), so the sorted order is exactly count descending with ties
in dictionary (= first-occurrence) order, which is the unique order sorted
by this total relation on position-tagged entries. -/
def statOrder (a b : ℕ × String × ℕ) : Prop :=
  b.2.2 < a.2.2 ∨ (a.2.2 = b.2.2 ∧ a.1 ≤ b.1)

instance : DecidableRel statOrder := fun a b =>
  inferInstanceAs (Decidable (b.2.2 < a.2.2 ∨ (a.2.2 = b.2.2 ∧ a.1 ≤ b.1)))

instance : IsTotal (ℕ × String × ℕ) statOrder :=
  ⟨by intro a b; unfold statOrder; omega⟩

instance : IsTrans (ℕ × String × ℕ) statOrder :=
  ⟨by intro a b c h1 h2; unfold statOrder at *; omega⟩

/-- The channel-stats aggregation of the `get_channel_stats` tool branch:
count by channel in dictionary order, then sort by count descending
(stably). -/
def channelStats (msgs : List Msg) : List (String × Nat) :=
  (List.insertionSort statOrder (countsAssoc msgs).enum).map Prod.snd

/-- The `get_channel_stats` tool branch of `call_tool`: both date keys are
always passed to `query_messages` (with value `None` when the caller omitted
them), then the filtered list is aggregated. -/
def get_channel_stats_tool (data : Dataset) (fd td : Option String) :
    Except FilterErr (List (String × Nat)) :=
  match query_messages data { from_date := some fd, to_date := some td } with
  | .error e => .error e
  | .ok msgs => .ok (channelStats msgs)

/-- The `query_messages` tool branch of `call_tool`:
`limit = arguments.pop("limit", 50)` and
`query_messages(data, **arguments)[:limit]`. -/
def query_messages_tool (data : Dataset) (spec : FilterSpec) (limit : Option Nat) :
    Except FilterErr (List Msg) :=
  match query_messages data spec with
  | .error e => .error e
  | .ok msgs => .ok (msgs.take (limit.getD 50))

/-! ### Shared lemmas about the query loop -/

theorem msgPass_empty (m : Msg) : msgPass {} m = .ok true := rfl

/-- When the loop body is a pure predicate, the loop is `List.filter`. -/
theorem queryLoop_filter (spec : FilterSpec) (p : Msg → Bool)
    (h : ∀ m, msgPass spec m = .ok (p m)) (l : List Msg) :
    queryLoop spec l = .ok (l.filter p) := by
  induction l with
  | nil => rfl
  | cons m rest ih =>
    simp only [queryLoop, h, ih, List.filter_cons]

/-- C2: with every filter field absent, `query_messages` returns
`all_messages` unchanged, identical in order and length. -/
theorem c2_empty_spec_is_identity (data : Dataset) :
    query_messages data {} = .ok data.all_messages := by
  unfold query_messages
  rw [queryLoop_filter {} (fun _ => true) msgPass_empty]
  simp

theorem msgPass_hasReplies (b : Bool) (m : Msg) :
    msgPass { has_replies := some b } m
      = .ok (b == decide (0 < m.reply_count.getD 0)) := by
  cases h : (b == decide (0 < m.reply_count.getD 0)) <;>
    simp_all [msgPass, chPass, datePass, userPass, textPass, repliesPass, catPass]

/-- C5: `has_replies = true` keeps exactly the messages with
`reply_count` (default 0) strictly positive, and `has_replies = false`
keeps exactly the complement, the messages whose `reply_count` defaults
to or equals 0. -/
theorem c5_has_replies_partition (data : Dataset) :
    query_messages data { has_replies := some true }
      = .ok (data.all_messages.filter fun m => decide (0 < m.reply_count.getD 0)) ∧
    query_messages data { has_replies := some false }
      = .ok (data.all_messages.filter fun m => decide (m.reply_count.getD 0 = 0)) := by
  constructor
  · unfold query_messages
    rw [queryLoop_filter _ (fun m => decide (0 < m.reply_count.getD 0))]
    intro m
    rw [msgPass_hasReplies]
    cases h : decide (0 < m.reply_count.getD 0) <;> simp [h]
  · unfold query_messages
    rw [queryLoop_filter _ (fun m => decide (m.reply_count.getD 0 = 0))]
    intro m
    rw [msgPass_hasReplies]
    rcases hn : m.reply_count.getD 0 with _ | k <;> simp [hn]

/-- The query loop can only select a sublist of its input. -/
theorem queryLoop_sublist (spec : FilterSpec) (l res : List Msg)
    (h : queryLoop spec l = .ok res) : res.Sublist l := by
  induction l generalizing res with
  | nil =>
    simp only [queryLoop] at h
    cases h
    exact List.Sublist.refl []
  | cons m rest ih =>
    simp only [queryLoop] at h
    cases hm : msgPass spec m with
    | error e => rw [hm] at h; cases h
    | ok keep =>
      rw [hm] at h
      cases hq : queryLoop spec rest with
      | error e => rw [hq] at h; cases h
      | ok others =>
        rw [hq] at h
        cases h
        have hsub := ih others hq
        cases keep with
        | true => simpa using hsub.cons₂ m
        | false => simpa using hsub.cons m

/-- C6: whenever `query_messages` returns normally, the result is a
sublist of `all_messages` — original relative order is preserved and no
occurrence is duplicated or repeated more often than in the input. -/
theorem c6_result_is_sublist (data : Dataset) (spec : FilterSpec) (res : List Msg)
    (h : query_messages data spec = .ok res) :
    res.Sublist data.all_messages ∧
      ∀ m : Msg, res.count m ≤ data.all_messages.count m := by
  have hs : res.Sublist data.all_messages := queryLoop_sublist spec data.all_messages res h
  exact ⟨hs, fun m => hs.count_le m⟩

theorem c6_witness :
    query_messages { all_messages := [{ text := some "x", reply_count := some 1 }] }
        { has_replies := some true } = .ok [{ text := some "x", reply_count := some 1 }] ∧
    List.Sublist [({ text := some "x", reply_count := some 1 } : Msg)]
        [{ text := some "x", reply_count := some 1 }] :=
  ⟨rfl, (c6_result_is_sublist { all_messages := [{ text := some "x", reply_count := some 1 }] }
      { has_replies := some true } [{ text := some "x", reply_count := some 1 }] rfl).1⟩

/-- C10: with both date arguments absent, the `get_channel_stats` dispatcher
still passes both date keys (with value `None`) into `query_messages`, whose
date branch then calls `fromisoformat(None)`; on any dataset with at least
one message the tool therefore fails with a `TypeError` instead of returning
full-dataset statistics. -/
theorem c10_stats_without_dates_errors (data : Dataset)
    (h : data.all_messages ≠ []) :
    get_channel_stats_tool data none none = .error .typeErr := by
  match hd : data.all_messages with
  | [] => exact absurd hd h
  | m :: rest =>
    unfold get_channel_stats_tool query_messages
    rw [hd]
    simp [queryLoop, msgPass, chPass, datePass, pyFromisoformat]

theorem c10_witness :
    get_channel_stats_tool { all_messages := [{ text := some "hello" }] } none none
      = .error .typeErr :=
  c10_stats_without_dates_errors { all_messages := [{ text := some "hello" }] }
    (by simp)

/-! ### C1: unknown category values -/

def mC1 : Msg := { text := some "hello" }

/-- C1 counterexample: with the unknown category "bogus" (not in the
category table), `query_messages` does not raise — it returns the message
list normally, so the claim "raises InvalidFilterError rather than
returning a result" is false on the code. -/
theorem c1_counterexample :
    categoryMap (strLower "bogus") = none ∧
    query_messages { all_messages := [mC1] } { category := some "bogus" } = .ok [mC1] :=
  ⟨by decide, by rfl⟩

/-- C1 (amended): a category whose lowercasing is not in the category table
is silently ignored — `query_messages` behaves exactly as if the category
key were absent, raising nothing. -/
theorem c1_unknown_category_ignored (data : Dataset) (spec : FilterSpec) (c : String)
    (hc : spec.category = some c) (hu : categoryMap (strLower c) = none) :
    query_messages data spec = query_messages data { spec with category := none } := by
  have hm : ∀ m, msgPass spec m = msgPass { spec with category := none } m := by
    intro m
    have hcat : catPass spec m = true := by simp [catPass, hc, hu]
    have hcat2 : catPass { spec with category := none } m = true := by simp [catPass]
    have e1 : chPass { spec with category := none } m = chPass spec m := rfl
    have e2 : datePass { spec with category := none } m = datePass spec m := rfl
    have e3 : userPass { spec with category := none } m = userPass spec m := rfl
    have e4 : textPass { spec with category := none } m = textPass spec m := rfl
    have e5 : repliesPass { spec with category := none } m = repliesPass spec m := rfl
    simp only [msgPass, e1, e2, e3, e4, e5, hcat, hcat2]
  unfold query_messages
  induction data.all_messages with
  | nil => rfl
  | cons m rest ih => simp only [queryLoop, hm m, ih]

theorem c1_witness :
    query_messages { all_messages := [mC1] } { category := some "Bogus" }
      = query_messages { all_messages := [mC1] } {} :=
  c1_unknown_category_ignored { all_messages := [mC1] } { category := some "Bogus" }
    "Bogus" rfl (by decide)

/-! ### C3: inclusive date bounds -/

theorem parseDate10_length (cs : List Char) (d : Int) (h : parseDate10 cs = some d) :
    cs.length = 10 := by
  unfold parseDate10 at h
  split at h
  · rfl
  · simp at h

/-- A string that is exactly a well-formed calendar date parses to the
date-time at its midnight. -/
theorem parseIsoDateTime_date (s : String) (d : Int) (h : parseDate s = some d) :
    parseIsoDateTime s = some (midnightOf d) := by
  unfold parseDate at h
  have hlen : s.toList.length = 10 := parseDate10_length _ _ h
  unfold parseIsoDateTime
  rw [List.take_of_length_le (le_of_eq hlen), h, List.drop_eq_nil_of_le (le_of_eq hlen)]

theorem queryLoop_single (spec : FilterSpec) (m : Msg) (b : Bool)
    (h : msgPass spec m = .ok b) :
    query_messages { all_messages := [m] } spec = .ok (if b then [m] else []) := by
  unfold query_messages
  simp [queryLoop, h]

theorem msgPass_dates (m : Msg) (f t : String) (df dt : Int)
    (hf : parseDate f = some df) (ht : parseDate t = some dt) :
    msgPass { from_date := some (some f), to_date := some (some t) } m
      = .ok (if localDateTime (m.ts.getD 0) < midnightOf df then false
             else !(midnightOf dt < localDateTime (m.ts.getD 0))) := by
  have hf2 := parseIsoDateTime_date f df hf
  have ht2 := parseIsoDateTime_date t dt ht
  by_cases h : localDateTime (m.ts.getD 0) < midnightOf df
  · simp [msgPass, chPass, datePass, toPassCheck, pyFromisoformat, hf2, ht2, h,
      userPass, textPass, repliesPass, catPass]
  · by_cases h2 : midnightOf dt < localDateTime (m.ts.getD 0) <;>
      simp [msgPass, chPass, datePass, toPassCheck, pyFromisoformat, hf2, ht2, h, h2,
        userPass, textPass, repliesPass, catPass]

/-- C3: with both bounds present and well-formed (`fromDate` ≤ `toDate`),
the date range is inclusive at both ends: a message converting exactly to
midnight of either bound is kept, one strictly before `fromDate`'s midnight
or strictly after `toDate`'s midnight is dropped. -/
theorem c3_date_range_inclusive (m : Msg) (f t : String) (df dt : Int)
    (hf : parseDate f = some df) (ht : parseDate t = some dt) (hle : df ≤ dt) :
    (localDateTime (m.ts.getD 0) = midnightOf df →
        query_messages { all_messages := [m] }
          { from_date := some (some f), to_date := some (some t) } = .ok [m]) ∧
    (localDateTime (m.ts.getD 0) = midnightOf dt →
        query_messages { all_messages := [m] }
          { from_date := some (some f), to_date := some (some t) } = .ok [m]) ∧
    (localDateTime (m.ts.getD 0) < midnightOf df →
        query_messages { all_messages := [m] }
          { from_date := some (some f), to_date := some (some t) } = .ok []) ∧
    (midnightOf dt < localDateTime (m.ts.getD 0) →
        query_messages { all_messages := [m] }
          { from_date := some (some f), to_date := some (some t) } = .ok []) := by
  have hmono : midnightOf df ≤ midnightOf dt := by
    unfold midnightOf
    have hc : (df : ℚ) ≤ (dt : ℚ) := by exact_mod_cast hle
    nlinarith
  have hbase := queryLoop_single _ m _ (msgPass_dates m f t df dt hf ht)
  refine ⟨fun hEq => ?_, fun hEq => ?_, fun hlt => ?_, fun hgt => ?_⟩
  · rw [hbase, hEq]
    have h1 : ¬(midnightOf df < midnightOf df) := lt_irrefl _
    have h2 : ¬(midnightOf dt < midnightOf df) := not_lt.mpr hmono
    simp [h1, h2]
  · rw [hbase, hEq]
    have h1 : ¬(midnightOf dt < midnightOf df) := not_lt.mpr hmono
    have h2 : ¬(midnightOf dt < midnightOf dt) := lt_irrefl _
    simp [h1, h2]
  · rw [hbase]
    simp [hlt]
  · rw [hbase]
    have h1 : ¬(localDateTime (m.ts.getD 0) < midnightOf df) :=
      not_lt.mpr (le_trans hmono (le_of_lt hgt))
    simp [h1, hgt]

def mC3 : Msg := { ts := some 1704067200 }

theorem c3_witness :
    query_messages { all_messages := [mC3] }
        { from_date := some (some "2024-01-01"), to_date := some (some "2024-01-02") }
      = .ok [mC3] :=
  (c3_date_range_inclusive mC3 "2024-01-01" "2024-01-02" 19723 19724 rfl rfl
      (by norm_num)).1
    (by norm_num [mC3, localDateTime, midnightOf])

/-! ### C4: missing ts and the date bounds -/

def mC4 : Msg := { text := some "no-ts" }

/-- C4 counterexample: a record with missing `ts` is treated as epoch 0,
which does *not* fail the date lower bound `1970-01-01` (midnight of that
date is exactly epoch 0, and the comparison is strict), so the record is
kept — the claim's "fails every date lower bound, for all fromDate values"
is false on the code. -/
theorem c4_counterexample :
    mC4.ts = none ∧ parseDate "1970-01-01" = some 0 ∧
    query_messages { all_messages := [mC4] }
      { from_date := some (some "1970-01-01") } = .ok [mC4] := by
  refine ⟨rfl, by decide, ?_⟩
  have h0 : ¬(localDateTime (mC4.ts.getD 0) < midnightOf 0) := by
    norm_num [mC4, localDateTime, midnightOf]
  have hpass : msgPass { from_date := some (some "1970-01-01") } mC4 = .ok true := by
    simp [msgPass, chPass, datePass, toPassCheck, pyFromisoformat,
      parseIsoDateTime_date "1970-01-01" 0 (by decide), h0,
      userPass, textPass, repliesPass, catPass]
  rw [queryLoop_single _ mC4 true hpass]
  simp

theorem memberLoop_single (fd td : Option String) (mem : Member) (b : Bool)
    (h : memberPass fd td mem = .ok b) :
    memberLoop fd td [mem] = .ok (if b then [mem] else []) := by
  simp [memberLoop, h]

/-- C4 (amended): date filtering never throws on a missing `ts` — the record
is scored as epoch 0, so it fails every well-formed date lower bound whose
civil day is strictly after 1970-01-01 (`0 < df`) and satisfies every
well-formed date upper bound at or after 1970-01-01 (`0 ≤ dt`), in both
`query_messages` and `get_new_members`. -/
theorem c4_missing_ts_epoch_zero (m : Msg) (mem : Member) (f t : String) (df dt : Int)
    (hm : m.ts = none) (hmem : mem.ts = none)
    (hf : parseDate f = some df) (ht : parseDate t = some dt)
    (hdf : 0 < df) (hdt : 0 ≤ dt) :
    query_messages { all_messages := [m] } { from_date := some (some f) } = .ok [] ∧
    query_messages { all_messages := [m] } { to_date := some (some t) } = .ok [m] ∧
    get_new_members { new_members := [mem] } (some f) none = .ok [] ∧
    get_new_members { new_members := [mem] } none (some t) = .ok [mem] := by
  have hdfq : (0 : ℚ) < midnightOf df := by
    unfold midnightOf
    have hc : (0 : ℚ) < (df : ℚ) := by exact_mod_cast hdf
    nlinarith
  have hdtq : ¬(midnightOf dt < (0 : ℚ)) := by
    unfold midnightOf
    have hc : (0 : ℚ) ≤ (dt : ℚ) := by exact_mod_cast hdt
    intro hcon
    nlinarith
  have hfne : (f == "") = false := by
    have : f ≠ "" := by
      intro hfe
      rw [hfe] at hf
      cases hf
    simpa using this
  have htne : (t == "") = false := by
    have : t ≠ "" := by
      intro hte
      rw [hte] at ht
      cases ht
    simpa using this
  have hf2 := parseIsoDateTime_date f df hf
  have ht2 := parseIsoDateTime_date t dt ht
  refine ⟨?_, ?_, ?_, ?_⟩
  · have hpass : msgPass { from_date := some (some f) } m = .ok false := by
      simp [msgPass, chPass, datePass, toPassCheck, pyFromisoformat, hf2, hm,
        localDateTime, hdfq]
    rw [queryLoop_single _ m false hpass]
    rfl
  · have hpass : msgPass { to_date := some (some t) } m = .ok true := by
      simp [msgPass, chPass, datePass, toPassCheck, pyFromisoformat, ht2, hm,
        localDateTime, hdtq, userPass, textPass, repliesPass, catPass]
    rw [queryLoop_single _ m true hpass]
    rfl
  · have hpass : memberPass (some f) none mem = .ok false := by
      simp [memberPass, memberToCheck, pyTruthy, hf2, hmem, localDateTime, hfne, hdfq]
    unfold get_new_members
    rw [memberLoop_single _ _ mem false hpass]
    simp [pyTruthy, hfne]
  · have hpass : memberPass none (some t) mem = .ok true := by
      simp [memberPass, memberToCheck, pyTruthy, ht2, hmem, localDateTime, htne, hdtq]
    unfold get_new_members
    rw [memberLoop_single _ _ mem true hpass]
    simp [pyTruthy, htne]

def memC4 : Member := { name := some "pat" }

theorem c4_witness :
    query_messages { all_messages := [mC4] }
        { from_date := some (some "2024-01-01") } = .ok [] ∧
    query_messages { all_messages := [mC4] }
        { to_date := some (some "1970-01-01") } = .ok [mC4] ∧
    get_new_members { new_members := [memC4] } (some "2024-01-01") none = .ok [] ∧
    get_new_members { new_members := [memC4] } none (some "1970-01-01") = .ok [memC4] :=
  c4_missing_ts_epoch_zero mC4 memC4 "2024-01-01" "1970-01-01" 19723 0
    rfl rfl (by decide) (by decide) (by norm_num) (by norm_num)

/-! ### C9: malformed date bounds -/

def mN1 : Msg := { text := some "n1", reply_count := some 0 }
def mN2 : Msg := { text := some "n2", reply_count := some 0 }
def mY1 : Msg := { text := some "y1", reply_count := some 1 }
def mY2 : Msg := { text := some "y2", reply_count := some 1 }
def mY3 : Msg := { text := some "y3", reply_count := some 1 }
def dataC8 : Dataset := { all_messages := [mN1, mN2, mY1, mY2, mY3] }
def specC8 : FilterSpec := { has_replies := some true }

/-- C8: the `query_messages` tool truncates strictly after filtering: the
tool result is the first `limit` elements (default 50) of the fully
filtered sequence; concretely, three matching messages behind two
non-matching ones with limit 2 yield exactly the first two matches, while
filtering the pre-truncated input would instead yield nothing. -/
theorem c8_limit_after_filtering (data : Dataset) (spec : FilterSpec)
    (n : Nat) (res : List Msg) (h : query_messages data spec = .ok res) :
    query_messages_tool data spec (some n) = .ok (res.take n) ∧
    query_messages_tool data spec none = .ok (res.take 50) ∧
    query_messages_tool dataC8 specC8 (some 2) = .ok [mY1, mY2] ∧
    query_messages { all_messages := dataC8.all_messages.take 2 } specC8 = .ok [] := by
  refine ⟨?_, ?_, by rfl, by rfl⟩
  · simp [query_messages_tool, h]
  · simp [query_messages_tool, h]

theorem c8_witness :
    query_messages_tool dataC8 specC8 (some 2) = .ok ([mY1, mY2, mY3].take 2) :=
  (c8_limit_after_filtering dataC8 specC8 2 [mY1, mY2, mY3] (by rfl)).1

/-! ### C7: channel statistics -/

/-- The channel names of a list in first-occurrence order (the key order of
an insertion-ordered dictionary built over the list). -/
def firstOccsR : List String → List String
  | [] => []
  | c :: cs => c :: (firstOccsR cs).filter (fun x => decide (x ≠ c))

theorem mem_firstOccsR (x : String) (ns : List String) :
    x ∈ firstOccsR ns ↔ x ∈ ns := by
  induction ns with
  | nil => simp [firstOccsR]
  | cons c cs ih =>
    simp only [firstOccsR, List.mem_cons, List.mem_filter, decide_eq_true_eq]
    constructor
    · rintro (h | ⟨h, _⟩)
      · exact Or.inl h
      · exact Or.inr (ih.mp h)
    · rintro (h | h)
      · exact Or.inl h
      · by_cases hxc : x = c
        · exact Or.inl hxc
        · exact Or.inr ⟨ih.mpr h, hxc⟩

theorem pairwise_firstOccsR (ns : List String) :
    List.Pairwise (fun a b => ns.indexOf a < ns.indexOf b) (firstOccsR ns) := by
  induction ns with
  | nil => simp [firstOccsR]
  | cons c cs ih =>
    rw [firstOccsR, List.pairwise_cons]
    constructor
    · intro x hx
      rw [List.mem_filter, decide_eq_true_eq] at hx
      obtain ⟨hxF, hxc⟩ := hx
      rw [List.indexOf_cons_self, List.indexOf_cons_ne _ (Ne.symm hxc)]
      exact Nat.succ_pos _
    · refine (ih.filter _).imp_of_mem ?_
      intro a b ha hb hab
      rw [List.mem_filter, decide_eq_true_eq] at ha hb
      rw [List.indexOf_cons_ne _ (Ne.symm ha.2), List.indexOf_cons_ne _ (Ne.symm hb.2)]
      exact Nat.succ_lt_succ hab

theorem bumpCount_not_mem (acc : List (String × Nat)) (c : String)
    (h : c ∉ acc.map Prod.fst) : bumpCount acc c = acc ++ [(c, 1)] := by
  induction acc with
  | nil => rfl
  | cons p rest ih =>
    obtain ⟨k, n⟩ := p
    simp only [List.map_cons, List.mem_cons] at h
    push_neg at h
    obtain ⟨h1, h2⟩ := h
    rw [bumpCount, if_neg (Ne.symm h1), ih h2, List.cons_append]

theorem bumpCount_mem (acc : List (String × Nat)) (c : String)
    (hnd : (acc.map Prod.fst).Nodup) (h : c ∈ acc.map Prod.fst) :
    bumpCount acc c = acc.map (fun p => if p.1 = c then (p.1, p.2 + 1) else p) := by
  induction acc with
  | nil => simp at h
  | cons p rest ih =>
    obtain ⟨k, n⟩ := p
    simp only [List.map_cons, List.nodup_cons] at hnd
    obtain ⟨hk, hrest⟩ := hnd
    simp only [List.map_cons, List.mem_cons] at h
    by_cases hkc : k = c
    · subst hkc
      rw [bumpCount, if_pos rfl, List.map_cons]
      simp only [if_pos rfl]
      congr 1
      symm
      rw [List.map_congr_left, List.map_id]
      intro p hp
      have : p.1 ≠ k := by
        intro hpk
        exact hk (hpk ▸ List.mem_map_of_mem Prod.fst hp)
      rw [if_neg this]
      rfl
    · have hc : c ∈ rest.map Prod.fst := by
        rcases h with h | h
        · exact absurd h.symm hkc
        · exact h
      rw [bumpCount, if_neg hkc, List.map_cons]
      simp only [if_neg hkc]
      rw [ih hrest hc]

theorem map_fst_bumpCount_not_mem (acc : List (String × Nat)) (c : String)
    (h : c ∉ acc.map Prod.fst) :
    (bumpCount acc c).map Prod.fst = acc.map Prod.fst ++ [c] := by
  rw [bumpCount_not_mem acc c h, List.map_append]
  rfl

theorem map_fst_bumpCount_mem (acc : List (String × Nat)) (c : String)
    (hnd : (acc.map Prod.fst).Nodup) (h : c ∈ acc.map Prod.fst) :
    (bumpCount acc c).map Prod.fst = acc.map Prod.fst := by
  rw [bumpCount_mem acc c hnd h, List.map_map]
  apply List.map_congr_left
  intro p hp
  by_cases hpc : p.1 = c <;> simp [Function.comp_apply, hpc]

/-- Closed form of the stats-dictionary fold: starting from a dictionary
with distinct keys, processing `ns` updates existing entries by their
occurrence counts and appends the fresh channels in first-occurrence order
with their counts. -/
theorem foldl_bumpCount_repr (ns : List String) :
    ∀ acc : List (String × Nat), (acc.map Prod.fst).Nodup →
      List.foldl bumpCount acc ns
        = acc.map (fun p => (p.1, p.2 + ns.count p.1))
          ++ ((firstOccsR ns).filter
                (fun x => decide (x ∉ acc.map Prod.fst))).map
              (fun x => (x, ns.count x)) := by
  induction ns with
  | nil =>
    intro acc hacc
    simp [firstOccsR]
  | cons c cs ih =>
    intro acc hacc
    rw [List.foldl_cons]
    by_cases hc : c ∈ acc.map Prod.fst
    · rw [ih (bumpCount acc c) (by rw [map_fst_bumpCount_mem acc c hacc hc]; exact hacc)]
      rw [map_fst_bumpCount_mem acc c hacc hc, bumpCount_mem acc c hacc hc]
      congr 1
      · rw [List.map_map]
        apply List.map_congr_left
        intro p hp
        by_cases hpc : p.1 = c
        · simp only [Function.comp_apply, if_pos hpc]
          simp only [hpc, List.count_cons_self, Prod.mk.injEq]
          exact ⟨trivial, by omega⟩
        · simp only [Function.comp_apply, if_neg hpc, List.count_cons_of_ne hpc]
      · symm
        rw [show firstOccsR (c :: cs)
              = c :: (firstOccsR cs).filter (fun x => decide (x ≠ c)) from rfl]
        rw [List.filter_cons, if_neg (by simp [hc]), List.filter_filter]
        have hpred : ∀ x ∈ firstOccsR cs,
            (decide (x ∉ acc.map Prod.fst) && decide (x ≠ c))
              = decide (x ∉ acc.map Prod.fst) := by
          intro x hx
          by_cases hxK : x ∈ acc.map Prod.fst
          · simp [hxK]
          · have hxc : x ≠ c := fun hxc => hxK (hxc ▸ hc)
            simp [hxK, hxc]
        rw [List.filter_congr hpred]
        apply List.map_congr_left
        intro x hx
        rw [List.mem_filter, decide_eq_true_eq] at hx
        have hxc : x ≠ c := fun hxc => hx.2 (hxc ▸ hc)
        rw [List.count_cons_of_ne hxc]
    · rw [ih (bumpCount acc c)
          (by rw [map_fst_bumpCount_not_mem acc c hc]
              simp only [List.nodup_append]
              exact ⟨hacc, List.nodup_singleton c, by simpa using hc⟩)]
      rw [map_fst_bumpCount_not_mem acc c hc, bumpCount_not_mem acc c hc]
      rw [List.map_append, List.append_assoc]
      congr 1
      · apply List.map_congr_left
        intro p hp
        have hpc : p.1 ≠ c := by
          intro hpc
          exact hc (hpc ▸ List.mem_map_of_mem Prod.fst hp)
        rw [List.count_cons_of_ne hpc]
      · rw [show firstOccsR (c :: cs)
              = c :: (firstOccsR cs).filter (fun x => decide (x ≠ c)) from rfl]
        rw [List.filter_cons, if_pos (by simp [hc]), List.filter_filter]
        have hpred : ∀ x ∈ firstOccsR cs,
            (decide (x ∉ acc.map Prod.fst) && decide (x ≠ c))
              = decide (x ∉ acc.map Prod.fst ++ [c]) := by
          intro x hx
          by_cases hxK : x ∈ acc.map Prod.fst
          · simp [hxK]
          · by_cases hxc : x = c <;> simp [hxK, hxc]
        rw [← List.filter_congr hpred]
        simp only [List.map_cons, List.map_nil, List.cons_append, List.nil_append]
        congr 1
        · rw [List.count_cons_self, Prod.mk.injEq]
          exact ⟨rfl, by omega⟩
        · apply List.map_congr_left
          intro x hx
          rw [List.mem_filter] at hx
          obtain ⟨hx1, hx2⟩ := hx
          rw [Bool.and_eq_true, decide_eq_true_eq, decide_eq_true_eq] at hx2
          rw [List.count_cons_of_ne hx2.2]

theorem countsAssoc_eq (msgs : List Msg) :
    countsAssoc msgs
      = (firstOccsR (chNames msgs)).map
          (fun c => (c, (chNames msgs).count c)) := by
  unfold countsAssoc
  rw [foldl_bumpCount_repr (chNames msgs) [] (by simp)]
  simp

theorem pairwise_and {α : Type} {R S : α → α → Prop} {l : List α}
    (h1 : List.Pairwise R l) (h2 : List.Pairwise S l) :
    List.Pairwise (fun a b => R a b ∧ S a b) l := by
  induction l with
  | nil => exact List.Pairwise.nil
  | cons x xs ih =>
    rw [List.pairwise_cons] at h1 h2 ⊢
    exact ⟨fun b hb => ⟨h1.1 b hb, h2.1 b hb⟩, ih h1.2 h2.2⟩

theorem channelStats_perm (msgs : List Msg) :
    (channelStats msgs).Perm (countsAssoc msgs) := by
  unfold channelStats
  have h := (List.perm_insertionSort statOrder (countsAssoc msgs).enum).map Prod.snd
  rwa [List.enum_map_snd] at h

theorem channelStats_mem (msgs : List Msg) (c : String) (n : Nat) :
    (c, n) ∈ channelStats msgs
      ↔ (c ∈ chNames msgs ∧ n = (chNames msgs).count c) := by
  rw [(channelStats_perm msgs).mem_iff, countsAssoc_eq, List.mem_map]
  constructor
  · rintro ⟨x, hx, heq⟩
    rw [Prod.mk.injEq] at heq
    obtain ⟨rfl, rfl⟩ := heq
    exact ⟨(mem_firstOccsR _ _).mp hx, rfl⟩
  · rintro ⟨hc, rfl⟩
    exact ⟨c, (mem_firstOccsR _ _).mpr hc, rfl⟩

theorem channelStats_sorted (msgs : List Msg) :
    List.Pairwise (fun a b : String × Nat => b.2 ≤ a.2) (channelStats msgs) := by
  unfold channelStats
  rw [List.pairwise_map]
  have hsort : List.Pairwise statOrder
      (List.insertionSort statOrder (countsAssoc msgs).enum) :=
    List.sorted_insertionSort statOrder _
  refine List.Pairwise.imp ?_ hsort
  intro a b hab
  rcases hab with h | ⟨h, _⟩
  · exact le_of_lt h
  · exact le_of_eq h.symm

theorem channelStats_ties (msgs : List Msg) :
    List.Pairwise
      (fun a b : String × Nat =>
        a.2 = b.2 → (chNames msgs).indexOf a.1 < (chNames msgs).indexOf b.1)
      (channelStats msgs) := by
  unfold channelStats
  rw [List.pairwise_map]
  have hsort : List.Pairwise statOrder
      (List.insertionSort statOrder (countsAssoc msgs).enum) :=
    List.sorted_insertionSort statOrder _
  have hperm : (List.insertionSort statOrder (countsAssoc msgs).enum).Perm
      (countsAssoc msgs).enum := List.perm_insertionSort statOrder _
  have hnodupfst : ((List.insertionSort statOrder (countsAssoc msgs).enum).map
      Prod.fst).Nodup := by
    rw [(hperm.map Prod.fst).nodup_iff, List.enum_map_fst]
    exact List.nodup_range _
  have hne : List.Pairwise (fun a b : ℕ × String × ℕ => a.1 ≠ b.1)
      (List.insertionSort statOrder (countsAssoc msgs).enum) :=
    List.pairwise_map.mp hnodupfst
  refine List.Pairwise.imp_of_mem ?_ (pairwise_and hsort hne)
  rintro ⟨i, ci, ni⟩ ⟨j, cj, nj⟩ ha hb hR hcnt
  obtain ⟨hso, hij⟩ := hR
  dsimp only at hso hij hcnt ⊢
  have hidx : i < j := by
    rcases hso with h | ⟨h, hle⟩
    · dsimp only at h
      omega
    · dsimp only at hle
      exact lt_of_le_of_ne hle hij
  have hamem : (countsAssoc msgs)[i]? = some (ci, ni) :=
    List.mk_mem_enum_iff_getElem?.mp (hperm.mem_iff.mp ha)
  have hbmem : (countsAssoc msgs)[j]? = some (cj, nj) :=
    List.mk_mem_enum_iff_getElem?.mp (hperm.mem_iff.mp hb)
  rw [countsAssoc_eq, List.getElem?_map] at hamem hbmem
  obtain ⟨ka, hka, hga⟩ := Option.map_eq_some'.mp hamem
  obtain ⟨kb, hkb, hgb⟩ := Option.map_eq_some'.mp hbmem
  rw [Prod.mk.injEq] at hga hgb
  obtain ⟨hka2, -⟩ := hga
  obtain ⟨hkb2, -⟩ := hgb
  obtain ⟨hia, hgeta⟩ := List.getElem?_eq_some.mp hka
  obtain ⟨hib, hgetb⟩ := List.getElem?_eq_some.mp hkb
  have hpw := List.pairwise_iff_getElem.mp (pairwise_firstOccsR (chNames msgs))
    i j hia hib hidx
  rw [hgeta, hgetb, hka2, hkb2] at hpw
  exact hpw

/-- C7: channel statistics group the filtered messages by `channel_name`
(a missing name is bucketed under "unknown" by `chNameStat`), and the
resulting (channel, count) pairs are sorted by count descending with equal
counts ordered by the channel's first occurrence in the input; in
particular channels `[a, b, a]` yield `[(a, 2), (b, 1)]`. -/
theorem c7_stats_sorted_counts (msgs : List Msg) :
    (∀ c n, (c, n) ∈ channelStats msgs
        ↔ (c ∈ chNames msgs ∧ n = (chNames msgs).count c)) ∧
    List.Pairwise (fun a b : String × Nat => b.2 ≤ a.2) (channelStats msgs) ∧
    List.Pairwise
      (fun a b : String × Nat =>
        a.2 = b.2 → (chNames msgs).indexOf a.1 < (chNames msgs).indexOf b.1)
      (channelStats msgs) ∧
    channelStats [{ channel_name := some "a" }, { channel_name := some "b" },
        { channel_name := some "a" }] = [("a", 2), ("b", 1)] :=
  ⟨channelStats_mem msgs, channelStats_sorted msgs, channelStats_ties msgs, by decide⟩
